import Mathlib

/-!
Verification development for the brainbox vault/sync core
(src-tauri/src/vault.rs and src-tauri/src/sync.rs).

Bytes are modelled as `Nat`, byte strings as `List Nat`, SQLite rows as Lean
structures, and each Rust function under scrutiny as a Lean function that
mirrors its control flow.  Rust/SQLite compare strings byte-lexicographically
on UTF-8, which coincides with code-point lexicographic order; we model this
with an executable comparator on `String`.
-/

/-- Three-way comparison of characters by code point (the order Rust's
`Ord for String` and SQLite's BINARY collation induce on valid UTF-8). -/
def charCmp (a b : Char) : Ordering :=
  if a.toNat < b.toNat then Ordering.lt
  else if b.toNat < a.toNat then Ordering.gt
  else Ordering.eq

/-- Three-way lexicographic comparison of character lists. -/
def strCmpAux : List Char → List Char → Ordering
  | [], [] => Ordering.eq
  | [], _ :: _ => Ordering.lt
  | _ :: _, [] => Ordering.gt
  | a :: as, b :: bs =>
    match charCmp a b with
    | Ordering.lt => Ordering.lt
    | Ordering.gt => Ordering.gt
    | Ordering.eq => strCmpAux as bs

/-- Strict lexicographic order on strings, modelling Rust's `<`/`>` on
`String` and SQLite's `<` on TEXT columns. -/
def strLtB (a b : String) : Bool := decide (strCmpAux a.data b.data = Ordering.lt)

theorem charToNat_injective : Function.Injective Char.toNat := by
  intro a b h
  have ha := Char.ofNat_toNat a
  have hb := Char.ofNat_toNat b
  rw [← ha, ← hb, h]

theorem charCmp_eq_iff (a b : Char) : charCmp a b = Ordering.eq ↔ a = b := by
  unfold charCmp
  constructor
  · intro h
    split at h
    · exact absurd h (by simp)
    · split at h
      · exact absurd h (by simp)
      · exact charToNat_injective (by omega)
  · intro h; subst h; simp

theorem charCmp_lt_iff (a b : Char) : charCmp a b = Ordering.lt ↔ a.toNat < b.toNat := by
  unfold charCmp
  constructor
  · intro h
    by_contra hc
    simp only [if_neg hc] at h
    split at h <;> simp_all
  · intro h; simp [h]

theorem charCmp_gt_iff (a b : Char) : charCmp a b = Ordering.gt ↔ b.toNat < a.toNat := by
  unfold charCmp
  constructor
  · intro h
    split at h
    · simp_all
    · split at h
      · assumption
      · simp_all
  · intro h
    have : ¬ a.toNat < b.toNat := by omega
    simp [this, h]

theorem strCmpAux_self : ∀ as : List Char, strCmpAux as as = Ordering.eq := by
  intro as
  induction as with
  | nil => rfl
  | cons a as ih =>
    simp only [strCmpAux]
    rw [(charCmp_eq_iff a a).mpr rfl]
    exact ih

theorem strCmpAux_eq_iff : ∀ (as bs : List Char), strCmpAux as bs = Ordering.eq ↔ as = bs := by
  intro as
  induction as with
  | nil =>
    intro bs
    cases bs <;> simp [strCmpAux]
  | cons a as ih =>
    intro bs
    cases bs with
    | nil => simp [strCmpAux]
    | cons b bs =>
      simp only [strCmpAux]
      constructor
      · intro h
        rcases hab : charCmp a b with _ | _ | _ <;> rw [hab] at h
        · exact absurd h (by simp)
        · have hb : a = b := (charCmp_eq_iff a b).mp hab
          have hs : as = bs := (ih bs).mp h
          rw [hb, hs]
        · exact absurd h (by simp)
      · intro h
        injection h with h1 h2
        subst h1; subst h2
        rw [(charCmp_eq_iff a a).mpr rfl]
        exact strCmpAux_self as

theorem strCmpAux_gt_iff_lt : ∀ (as bs : List Char),
    strCmpAux as bs = Ordering.gt ↔ strCmpAux bs as = Ordering.lt := by
  intro as
  induction as with
  | nil => intro bs; cases bs <;> simp [strCmpAux]
  | cons a as ih =>
    intro bs
    cases bs with
    | nil => simp [strCmpAux]
    | cons b bs =>
      simp only [strCmpAux]
      rcases h : charCmp a b with _ | _ | _
      · have hba : charCmp b a = Ordering.gt := by
          rw [charCmp_gt_iff]; rw [charCmp_lt_iff] at h; exact h
        rw [hba]; simp
      · have hba : charCmp b a = Ordering.eq := by
          rw [charCmp_eq_iff] at h ⊢; exact h.symm
        rw [hba]; exact ih bs
      · have hba : charCmp b a = Ordering.lt := by
          rw [charCmp_lt_iff]; rw [charCmp_gt_iff] at h; exact h
        rw [hba]; simp

theorem strCmpAux_lt_trans : ∀ (as bs cs : List Char),
    strCmpAux as bs = Ordering.lt → strCmpAux bs cs = Ordering.lt →
    strCmpAux as cs = Ordering.lt := by
  intro as
  induction as with
  | nil =>
    intro bs cs h1 h2
    cases bs with
    | nil => exact h2
    | cons b bs =>
      cases cs with
      | nil => simp [strCmpAux] at h2
      | cons c cs => simp [strCmpAux]
  | cons a as ih =>
    intro bs cs h1 h2
    cases bs with
    | nil => simp [strCmpAux] at h1
    | cons b bs =>
      cases cs with
      | nil => simp [strCmpAux] at h2
      | cons c cs =>
        simp only [strCmpAux] at h1 h2 ⊢
        rcases hab : charCmp a b with _ | _ | _ <;> rw [hab] at h1
        · rcases hbc : charCmp b c with _ | _ | _ <;> rw [hbc] at h2
          · have hac : charCmp a c = Ordering.lt := by
              rw [charCmp_lt_iff] at hab hbc ⊢; omega
            rw [hac]
          · have hb : b = c := (charCmp_eq_iff b c).mp hbc
            subst hb
            rw [hab]
          · exact absurd h2 (by simp)
        · have hb : a = b := (charCmp_eq_iff a b).mp hab
          subst hb
          rcases hbc : charCmp a c with _ | _ | _ <;> rw [hbc] at h2
          all_goals first
            | rfl
            | exact ih bs cs h1 h2
            | exact absurd h2 (by simp)
        · exact absurd h1 (by simp)

theorem strLtB_trans {a b c : String} (h1 : strLtB a b = true) (h2 : strLtB b c = true) :
    strLtB a c = true := by
  simp only [strLtB, decide_eq_true_eq] at h1 h2 ⊢
  exact strCmpAux_lt_trans _ _ _ h1 h2

theorem strLtB_irrefl (a : String) : strLtB a a = false := by
  simp only [strLtB, decide_eq_false_iff_not]
  rw [strCmpAux_self]
  simp

theorem strLtB_asymm {a b : String} (h : strLtB a b = true) : strLtB b a = false := by
  by_contra hc
  have hba : strLtB b a = true := by
    cases hv : strLtB b a
    · exact absurd hv hc
    · rfl
  have := strLtB_trans h hba
  rw [strLtB_irrefl] at this
  exact absurd this (by simp)

theorem strLtB_total (a b : String) (h : strLtB a b = false) :
    strLtB b a = true ∨ a = b := by
  simp only [strLtB, decide_eq_false_iff_not, decide_eq_true_eq] at h ⊢
  rcases hv : strCmpAux a.data b.data with _ | _ | _
  · exact absurd hv h
  · right
    have hd : a.data = b.data := (strCmpAux_eq_iff _ _).mp hv
    cases a; cases b
    simp only at hd
    rw [hd]
  · left
    exact (strCmpAux_gt_iff_lt a.data b.data).mp hv

/-! ## AeadCodec

The cipher itself (`XChaCha20Poly1305` from the `chacha20poly1305` crate) is
not part of this repository's sources; only its callers are.  Per spec §4.2
the codec provides authenticated encryption: the blob is a 24-byte random
nonce followed by ciphertext-plus-tag, decryption under the encrypting key
recovers the plaintext, and any other key is rejected by the tag check with
one generic failure.
-/

/-- Encode a string as its list of code points (stands in for UTF-8 bytes). -/
def strBytes (s : String) : List Nat := s.data.map Char.toNat

/-- Decode a list of code points back into a string. -/
def strOfBytes (l : List Nat) : String := String.mk (l.map Char.ofNat)

theorem strOfBytes_strBytes (s : String) : strOfBytes (strBytes s) = s := by
  cases s with
  | mk data =>
    simp only [strOfBytes, strBytes, List.map_map]
    have : data.map (Char.ofNat ∘ Char.toNat) = data := by
      induction data with
      | nil => rfl
      | cons c cs ih => simp [ih, Char.ofNat_toNat]
    rw [this]

/-- Modelled from the spec: the `XChaCha20Poly1305` AEAD of the external
`chacha20poly1305` crate, as used by `encrypt_content` (sync.rs:443-454).
The blob layout `nonce ‖ ciphertext` and the 24-byte nonce are from the
source; the cipher body is idealized as an AEAD whose authentication tag
binds key and nonce, so that decryption succeeds exactly under the
encrypting key (spec §4.2).  The per-call random nonce is passed in
explicitly (randomness oracle). -/
def encrypt_content (key nonce : List Nat) (plaintext : String) : List Nat :=
  nonce ++ (strBytes plaintext ++ (key ++ nonce))

/-- Modelled from the spec: the AEAD decryption step of `decrypt_content`,
applied to the blob after the 24-byte nonce prefix is re-extracted.  The
idealized tag check compares the embedded key-and-nonce tag; a too-short
body or any mismatch is the generic "Decryption failed". -/
def decrypt_body (key nonce rest : List Nat) : Except String String :=
  if rest.length < 56 then Except.error "Decryption failed"
  else if rest.drop (rest.length - 56) = key ++ nonce then
    Except.ok (strOfBytes (rest.take (rest.length - 56)))
  else Except.error "Decryption failed"

/-- Modelled from the spec alongside `encrypt_content`: `decrypt_content`
(sync.rs:97-109).  The short-blob guard, the re-extraction of the 24-byte
nonce prefix, and the two error strings are from the source. -/
def decrypt_content (key : List Nat) (encrypted : List Nat) : Except String String :=
  if encrypted.length < 24 then Except.error "Invalid ciphertext"
  else decrypt_body key (encrypted.take 24) (encrypted.drop 24)

/-- Modelled from the spec: `derive_key_from_password` (sync.rs:457-463)
calls PBKDF2-HMAC-SHA256 from the external `pbkdf2` crate; modelled as a
deterministic function of `(password, salt, iterations)` yielding a 32-byte
key (spec §4.1: determinism is the load-bearing property). -/
def derive_key_from_password (password salt : String) (iterations : Nat) : List Nat :=
  (List.range 32).map
    (fun i => ((strBytes password).sum + 131 * (strBytes salt).sum + iterations + i) % 256)

theorem derive_key_length (password salt : String) (iterations : Nat) :
    (derive_key_from_password password salt iterations).length = 32 := by
  simp [derive_key_from_password]

/-- C2: for every 32-byte key and plaintext, decrypting the blob produced by
`encrypt_content` under the same key re-extracts the 24-byte nonce prefix and
returns the original plaintext. -/
theorem aead_roundtrip (key nonce : List Nat) (p : String)
    (hk : key.length = 32) (hn : nonce.length = 24) :
    decrypt_content key (encrypt_content key nonce p) = Except.ok p := by
  unfold decrypt_content encrypt_content
  have hlen : (nonce ++ (strBytes p ++ (key ++ nonce))).length =
      24 + ((strBytes p).length + 56) := by
    simp [hn, hk]
  rw [if_neg (by omega)]
  rw [List.take_left' hn, List.drop_left' hn]
  unfold decrypt_body
  have hrest : (strBytes p ++ (key ++ nonce)).length = (strBytes p).length + 56 := by
    simp [hk, hn]
  rw [if_neg (by omega)]
  have hsub : (strBytes p ++ (key ++ nonce)).length - 56 = (strBytes p).length := by
    omega
  rw [hsub, List.take_left' rfl, List.drop_left' rfl, if_pos rfl, strOfBytes_strBytes]

/-- Witness for `aead_roundtrip` at a concrete key, nonce and plaintext. -/
theorem aead_roundtrip_witness :
    (List.replicate 32 7).length = 32 ∧ (List.replicate 24 3).length = 24 ∧
    decrypt_content (List.replicate 32 7)
      (encrypt_content (List.replicate 32 7) (List.replicate 24 3) "hello") =
      Except.ok "hello" :=
  ⟨by decide, by decide,
    aead_roundtrip (List.replicate 32 7) (List.replicate 24 3) "hello"
      (by decide) (by decide)⟩

/-- C3: decrypting a blob produced under one 32-byte key with a different
32-byte key fails the tag check, reported as the single generic
"Decryption failed" error (the same error corruption produces). -/
theorem aead_wrong_key_fails (k1 k2 nonce : List Nat) (p : String)
    (h1 : k1.length = 32) (h2 : k2.length = 32) (hn : nonce.length = 24)
    (hne : k1 ≠ k2) :
    decrypt_content k2 (encrypt_content k1 nonce p) = Except.error "Decryption failed" := by
  unfold decrypt_content encrypt_content
  have hlen : (nonce ++ (strBytes p ++ (k1 ++ nonce))).length =
      24 + ((strBytes p).length + 56) := by
    simp [hn, h1]
  rw [if_neg (by omega)]
  rw [List.take_left' hn, List.drop_left' hn]
  unfold decrypt_body
  have hrest : (strBytes p ++ (k1 ++ nonce)).length = (strBytes p).length + 56 := by
    simp [h1, hn]
  rw [if_neg (by omega)]
  have hsub : (strBytes p ++ (k1 ++ nonce)).length - 56 = (strBytes p).length := by
    omega
  rw [hsub, List.drop_left' rfl]
  rw [if_neg]
  intro hc
  exact hne ((List.append_inj hc (h1.trans h2.symm)).1)

/-- Witness for `aead_wrong_key_fails` at two concrete distinct keys. -/
theorem aead_wrong_key_fails_witness :
    (List.replicate 32 7).length = 32 ∧ (1 :: List.replicate 31 7).length = 32 ∧
    (List.replicate 24 3).length = 24 ∧
    (List.replicate 32 7 : List Nat) ≠ 1 :: List.replicate 31 7 ∧
    decrypt_content (1 :: List.replicate 31 7)
      (encrypt_content (List.replicate 32 7) (List.replicate 24 3) "hello") =
      Except.error "Decryption failed" :=
  ⟨by decide, by decide, by decide, by decide,
    aead_wrong_key_fails (List.replicate 32 7) (1 :: List.replicate 31 7)
      (List.replicate 24 3) "hello" (by decide) (by decide) (by decide) (by decide)⟩

/-- C10: a blob produced by `encrypt_content` is the 24-byte nonce followed
by the ciphertext-plus-tag, so its length is at least 24 and the
"Invalid ciphertext" short-blob branch of `decrypt_content` can never fire
on it, whatever key decryption is attempted with. -/
theorem encrypt_blob_never_short (key nonce : List Nat) (p : String)
    (hn : nonce.length = 24) :
    24 ≤ (encrypt_content key nonce p).length ∧
    ∀ k2 : List Nat,
      decrypt_content k2 (encrypt_content key nonce p) ≠
        Except.error "Invalid ciphertext" := by
  have hlen : 24 ≤ (encrypt_content key nonce p).length := by
    simp [encrypt_content, hn]
  refine ⟨hlen, ?_⟩
  intro k2
  unfold decrypt_content
  rw [if_neg (by omega)]
  unfold decrypt_body
  split
  · simp
  · split <;> simp

/-- Witness for `encrypt_blob_never_short` at a concrete nonce. -/
theorem encrypt_blob_never_short_witness :
    (List.replicate 24 3).length = 24 ∧
    24 ≤ (encrypt_content (List.replicate 32 7) (List.replicate 24 3) "x").length ∧
    decrypt_content [] (encrypt_content (List.replicate 32 7) (List.replicate 24 3) "x") ≠
      Except.error "Invalid ciphertext" :=
  ⟨by decide,
    (encrypt_blob_never_short (List.replicate 32 7) (List.replicate 24 3) "x" (by decide)).1,
    (encrypt_blob_never_short (List.replicate 32 7) (List.replicate 24 3) "x" (by decide)).2 []⟩

/-! ## VaultStore data model

`ItemRow` mirrors the `vault_items` row / `VaultItem` struct (vault.rs:279-303);
`SyncItem` mirrors the plaintext exchange record (sync.rs:47-62). -/

structure ItemRow where
  id : Int
  vault_id : Int
  title : String
  content : List Nat
  created_at : String
  updated_at : String
  image : Option String
  summary : Option String
  sort_order : Option Int
  uuid : Option String
  deleted_at : Option String
deriving DecidableEq

structure SyncItem where
  uuid : String
  title : String
  content : String
  created_at : String
  updated_at : String
  deleted_at : Option String
  image : Option String
  summary : Option String
  sort_order : Option Int
deriving DecidableEq

/-- First sort key of `list_by_vault`:
`CASE WHEN sort_order IS NULL THEN 1 ELSE 0 END` (vault.rs:422). -/
def rankOf (r : ItemRow) : Nat :=
  match r.sort_order with
  | none => 1
  | some _ => 0

/-- Second sort key: the numeric `sort_order` (rows compared on it only when
both are NULL or both non-NULL, thanks to the rank key). -/
def soVal (r : ItemRow) : Int :=
  match r.sort_order with
  | none => 0
  | some v => v

/-- The row order of `ORDER BY CASE WHEN sort_order IS NULL THEN 1 ELSE 0 END,
sort_order ASC, created_at DESC` (vault.rs:422). -/
def itemLE (a b : ItemRow) : Bool :=
  if rankOf a < rankOf b then true
  else if rankOf b < rankOf a then false
  else if soVal a < soVal b then true
  else if soVal b < soVal a then false
  else !(strLtB a.created_at b.created_at)

theorem itemLE_iff (a b : ItemRow) : itemLE a b = true ↔
    rankOf a < rankOf b ∨
    (rankOf a = rankOf b ∧ soVal a < soVal b) ∨
    (rankOf a = rankOf b ∧ soVal a = soVal b ∧
      strLtB a.created_at b.created_at = false) := by
  unfold itemLE
  split_ifs with hr1 hr2 hs1 hs2
  · simp [hr1]
  · simp only [false_iff]
    rintro (h | ⟨h, _⟩ | ⟨h, _⟩) <;> omega
  · have hre : rankOf a = rankOf b := by omega
    simp [hre, hs1]
  · simp only [false_iff]
    rintro (h | ⟨_, h⟩ | ⟨_, h, _⟩) <;> omega
  · have hre : rankOf a = rankOf b := by omega
    have hse : soVal a = soVal b := by omega
    cases hv : strLtB a.created_at b.created_at <;> simp [hre, hse, hv]

theorem itemLE_trans : ∀ (a b c : ItemRow),
    itemLE a b = true → itemLE b c = true → itemLE a c = true := by
  intro a b c hab hbc
  rw [itemLE_iff] at hab hbc ⊢
  have strHelp : ∀ x y z : String, strLtB x y = false → strLtB y z = false →
      strLtB x z = false := by
    intro x y z hxy hyz
    cases hv : strLtB x z
    · rfl
    · rcases strLtB_total x y hxy with hyx | hxeq
      · have := strLtB_trans hyx hv
        rw [this] at hyz
        exact absurd hyz (by simp)
      · rw [hxeq] at hv
        rw [hv] at hyz
        exact absurd hyz (by simp)
  rcases hab with h1 | ⟨h1, h2⟩ | ⟨h1, h2, h3⟩ <;>
    rcases hbc with g1 | ⟨g1, g2⟩ | ⟨g1, g2, g3⟩
  · exact Or.inl (by omega)
  · exact Or.inl (by omega)
  · exact Or.inl (by omega)
  · exact Or.inl (by omega)
  · exact Or.inr (Or.inl (by omega))
  · exact Or.inr (Or.inl (by omega))
  · exact Or.inl (by omega)
  · exact Or.inr (Or.inl (by omega))
  · exact Or.inr (Or.inr ⟨by omega, by omega, strHelp _ _ _ h3 g3⟩)

theorem itemLE_total : ∀ (a b : ItemRow), (itemLE a b || itemLE b a) = true := by
  intro a b
  rcases hv : itemLE a b with _ | _
  · simp only [Bool.false_or]
    rw [itemLE_iff]
    have hnd : ¬ (rankOf a < rankOf b ∨
        (rankOf a = rankOf b ∧ soVal a < soVal b) ∨
        (rankOf a = rankOf b ∧ soVal a = soVal b ∧
          strLtB a.created_at b.created_at = false)) := by
      intro hd
      have := (itemLE_iff a b).mpr hd
      rw [hv] at this
      exact absurd this (by simp)
    push_neg at hnd
    obtain ⟨n1, n2, n3⟩ := hnd
    rcases Nat.lt_trichotomy (rankOf b) (rankOf a) with hr | hr | hr
    · exact Or.inl hr
    · rcases Int.lt_trichotomy (soVal b) (soVal a) with hs | hs | hs
      · exact Or.inr (Or.inl ⟨hr, hs⟩)
      · have hstr : strLtB a.created_at b.created_at = true := by
          have hne := n3 hr.symm hs.symm
          cases hcv : strLtB a.created_at b.created_at
          · exact absurd hcv hne
          · rfl
        exact Or.inr (Or.inr ⟨hr, hs, strLtB_asymm hstr⟩)
      · have := n2 hr.symm
        omega
    · omega
  · simp

/-- `itemLE` as a relation, for sorting. -/
def itemLEP (a b : ItemRow) : Prop := itemLE a b = true

instance : DecidableRel itemLEP :=
  fun a b => inferInstanceAs (Decidable (itemLE a b = true))

instance : IsTotal ItemRow itemLEP :=
  ⟨fun a b => by
    have h := itemLE_total a b
    rcases Bool.or_eq_true_iff.mp h with h1 | h1
    · exact Or.inl h1
    · exact Or.inr h1⟩

instance : IsTrans ItemRow itemLEP :=
  ⟨fun a b c => itemLE_trans a b c⟩

/-- `VaultItem::list_by_vault` (vault.rs:418-444): the non-deleted items of a
vault, ordered by the SQL `ORDER BY` modelled in `itemLE`. -/
def list_by_vault (items : List ItemRow) (vault_id : Int) : List ItemRow :=
  (items.filter (fun r => decide (r.vault_id = vault_id ∧ r.deleted_at = none))).insertionSort itemLEP

/-- `VaultItem::list_all_by_vault_for_sync` (vault.rs:447-473): same ordering,
soft-deleted rows included. -/
def list_all_by_vault_for_sync (items : List ItemRow) (vault_id : Int) : List ItemRow :=
  (items.filter (fun r => decide (r.vault_id = vault_id))).insertionSort itemLEP

/-- Result of importing a single item (sync.rs:745-751). -/
inductive ImportItemResult where
  | Imported
  | Updated
  | Conflict (title : String)
  | Skipped
  | Deleted
deriving DecidableEq

/-- `import_item` (sync.rs:754-866), the per-item merge state machine.
The fresh row id of an SQL INSERT and the `Uuid::new_v4()` value for a
conflict copy are passed in as `newId`/`newUuid` (oracles for autoincrement
and the RNG); the random encryption nonce likewise. -/
def import_item (items : List ItemRow) (vault_id : Int) (si : SyncItem)
    (key nonce : List Nat) (newId : Int) (newUuid : String)
    (last_sync_at : Option String) : List ItemRow × ImportItemResult :=
  match items.find? (fun r => decide (r.uuid = some si.uuid)) with
  | some existing =>
    if si.deleted_at.isSome && !existing.deleted_at.isSome then
      (items.map (fun r =>
        if r.id = existing.id then
          { r with deleted_at := si.deleted_at, updated_at := si.updated_at }
        else r), ImportItemResult.Deleted)
    else if si.deleted_at.isSome then
      (items, ImportItemResult.Skipped)
    else
      let is_conflict :=
        match last_sync_at with
        | some last =>
          strLtB last existing.updated_at && strLtB last si.updated_at &&
            decide (existing.updated_at ≠ si.updated_at)
        | none => false
      if is_conflict then
        (items ++ [{ id := newId, vault_id := vault_id,
                     title := si.title ++ " [Conflict]",
                     content := encrypt_content key nonce si.content,
                     created_at := si.created_at, updated_at := si.updated_at,
                     image := si.image, summary := si.summary,
                     sort_order := si.sort_order, uuid := some newUuid,
                     deleted_at := none }],
         ImportItemResult.Conflict si.title)
      else if strLtB existing.updated_at si.updated_at then
        (items.map (fun r =>
          if r.id = existing.id then
            { r with title := si.title,
                     content := encrypt_content key nonce si.content,
                     updated_at := si.updated_at, image := si.image,
                     summary := si.summary, sort_order := si.sort_order }
          else r), ImportItemResult.Updated)
      else (items, ImportItemResult.Skipped)
  | none =>
    if si.deleted_at.isSome then (items, ImportItemResult.Skipped)
    else
      (items ++ [{ id := newId, vault_id := vault_id, title := si.title,
                   content := encrypt_content key nonce si.content,
                   created_at := si.created_at, updated_at := si.updated_at,
                   image := si.image, summary := si.summary,
                   sort_order := si.sort_order, uuid := some si.uuid,
                   deleted_at := none }],
       ImportItemResult.Imported)

/-- Concrete 32-byte key for witnesses. -/
def exKey : List Nat := List.replicate 32 7

/-- Concrete 24-byte nonce for witnesses. -/
def exNonce : List Nat := List.replicate 24 3

/-- A concrete local item used in witnesses. -/
def exRow : ItemRow :=
  { id := 1, vault_id := 1, title := "t", content := [0],
    created_at := "2026-01-01", updated_at := "2", image := none,
    summary := none, sort_order := none, uuid := some "u", deleted_at := none }

/-- A concrete incoming sync item (edited remotely) used in witnesses. -/
def exSi : SyncItem :=
  { uuid := "u", title := "t", content := "new", created_at := "c",
    updated_at := "3", deleted_at := none, image := none, summary := none,
    sort_order := none }

/-- A concrete tombstoned incoming sync item used in witnesses. -/
def exSiDel : SyncItem :=
  { uuid := "u", title := "t", content := "new", created_at := "c",
    updated_at := "3", deleted_at := some "d", image := none, summary := none,
    sort_order := none }

/-- C1: when a local item with the incoming uuid exists, neither side is
tombstoned, `last_sync_at` is set, both `updated_at` values are strictly
greater than it and they differ, `import_item` appends exactly one new row in
the importing vault titled `"<title> [Conflict]"` with the freshly generated
uuid and the re-encrypted remote content (which decrypts back to the remote
plaintext), leaves every existing row unchanged, and returns
`Conflict(title)`. -/
theorem import_item_conflict (items : List ItemRow) (vault_id : Int) (si : SyncItem)
    (key nonce : List Nat) (newId : Int) (newUuid : String) (last : String)
    (existing : ItemRow)
    (hfind : items.find? (fun r => decide (r.uuid = some si.uuid)) = some existing)
    (hld : existing.deleted_at = none) (hrd : si.deleted_at = none)
    (h1 : strLtB last existing.updated_at = true)
    (h2 : strLtB last si.updated_at = true)
    (h3 : existing.updated_at ≠ si.updated_at)
    (hk : key.length = 32) (hn : nonce.length = 24) :
    import_item items vault_id si key nonce newId newUuid (some last) =
      (items ++ [{ id := newId, vault_id := vault_id,
                   title := si.title ++ " [Conflict]",
                   content := encrypt_content key nonce si.content,
                   created_at := si.created_at, updated_at := si.updated_at,
                   image := si.image, summary := si.summary,
                   sort_order := si.sort_order, uuid := some newUuid,
                   deleted_at := none }],
       ImportItemResult.Conflict si.title) ∧
    decrypt_content key (encrypt_content key nonce si.content) = Except.ok si.content := by
  constructor
  · unfold import_item
    rw [hfind]
    simp [hrd, hld, h1, h2, h3]
  · exact aead_roundtrip key nonce si.content hk hn

/-- Witness for `import_item_conflict`: both sides edited after the
`last_sync_at` watermark "1". -/
theorem import_item_conflict_witness :
    ([exRow].find? (fun r => decide (r.uuid = some exSi.uuid)) = some exRow) ∧
    exRow.deleted_at = none ∧ exSi.deleted_at = none ∧
    strLtB "1" exRow.updated_at = true ∧ strLtB "1" exSi.updated_at = true ∧
    exRow.updated_at ≠ exSi.updated_at ∧ exKey.length = 32 ∧ exNonce.length = 24 ∧
    (import_item [exRow] 1 exSi exKey exNonce 2 "w" (some "1")).2 =
      ImportItemResult.Conflict exSi.title :=
  ⟨by decide, rfl, rfl, by decide, by decide, by decide, by decide, by decide,
   by rw [(import_item_conflict [exRow] 1 exSi exKey exNonce 2 "w" "1" exRow
      (by decide) rfl rfl (by decide) (by decide) (by decide) (by decide)
      (by decide)).1]⟩

/-- C6: tombstone propagation in `import_item`.  If the remote item is
tombstoned and a matching non-tombstoned local row exists, the local row's
`deleted_at`/`updated_at` are set (soft delete, row retained) and the result
is `Deleted`; the tombstoned item is afterwards excluded from `list_by_vault`.
If the remote is tombstoned and the local match is already tombstoned, or no
local match exists, nothing changes and the result is `Skipped`. -/
theorem import_item_tombstone (items : List ItemRow) (vault_id : Int) (si : SyncItem)
    (key nonce : List Nat) (newId : Int) (newUuid : String)
    (last_sync_at : Option String) :
    (∀ existing d,
      items.find? (fun r => decide (r.uuid = some si.uuid)) = some existing →
      si.deleted_at = some d → existing.deleted_at = none →
      (∀ r ∈ items, r.uuid = some si.uuid → r.id = existing.id) →
      import_item items vault_id si key nonce newId newUuid last_sync_at =
        (items.map (fun r =>
          if r.id = existing.id then
            { r with deleted_at := si.deleted_at, updated_at := si.updated_at }
          else r), ImportItemResult.Deleted) ∧
      (∀ v r, r ∈ list_by_vault (items.map (fun r =>
          if r.id = existing.id then
            { r with deleted_at := si.deleted_at, updated_at := si.updated_at }
          else r)) v → r.uuid ≠ some si.uuid)) ∧
    (∀ existing d d0,
      items.find? (fun r => decide (r.uuid = some si.uuid)) = some existing →
      si.deleted_at = some d → existing.deleted_at = some d0 →
      import_item items vault_id si key nonce newId newUuid last_sync_at =
        (items, ImportItemResult.Skipped)) ∧
    (∀ d,
      items.find? (fun r => decide (r.uuid = some si.uuid)) = none →
      si.deleted_at = some d →
      import_item items vault_id si key nonce newId newUuid last_sync_at =
        (items, ImportItemResult.Skipped)) := by
  refine ⟨?_, ?_, ?_⟩
  · intro existing d hfind hsd hld huniq
    constructor
    · unfold import_item
      rw [hfind]
      simp [hsd, hld]
    · intro v r hr hne
      have hmem : r ∈ (items.map (fun r =>
          if r.id = existing.id then
            { r with deleted_at := si.deleted_at, updated_at := si.updated_at }
          else r)).filter (fun r => decide (r.vault_id = v ∧ r.deleted_at = none)) :=
        (List.perm_insertionSort itemLEP _).mem_iff.mp hr
      rw [List.mem_filter] at hmem
      obtain ⟨hmap, hpred⟩ := hmem
      rw [List.mem_map] at hmap
      obtain ⟨r0, hr0, hfr⟩ := hmap
      simp only [decide_eq_true_eq] at hpred
      by_cases hid : r0.id = existing.id
      · rw [if_pos hid] at hfr
        rw [← hfr] at hpred
        simp only [hsd] at hpred
        exact absurd hpred.2 (by simp)
      · rw [if_neg hid] at hfr
        subst hfr
        exact hid (huniq r0 hr0 hne)
  · intro existing d d0 hfind hsd hld
    unfold import_item
    rw [hfind]
    simp [hsd, hld]
  · intro d hfind hsd
    unfold import_item
    rw [hfind]
    simp [hsd]

/-- Witness for `import_item_tombstone`: its three scenarios at concrete
inputs (remote tombstone over a live local row; over an already-tombstoned
row; with no local match). -/
theorem import_item_tombstone_witness :
    ((import_item [exRow] 1 exSiDel exKey exNonce 2 "w" none).2 =
      ImportItemResult.Deleted) ∧
    (import_item [{ exRow with deleted_at := some "x" }] 1 exSiDel exKey exNonce
      2 "w" none = ([{ exRow with deleted_at := some "x" }], ImportItemResult.Skipped)) ∧
    (import_item [] 1 exSiDel exKey exNonce 2 "w" none =
      ([], ImportItemResult.Skipped)) :=
  ⟨by rw [((import_item_tombstone [exRow] 1 exSiDel exKey exNonce 2 "w" none).1
      exRow "d" (by decide) rfl rfl (by decide)).1],
   (import_item_tombstone [{ exRow with deleted_at := some "x" }] 1 exSiDel
      exKey exNonce 2 "w" none).2.1 { exRow with deleted_at := some "x" } "d" "x"
      (by decide) rfl rfl,
   (import_item_tombstone [] 1 exSiDel exKey exNonce 2 "w" none).2.2 "d"
      (by decide) rfl⟩

/-- C9: with no recorded `last_sync_at`, `import_item` never reports a
conflict: the conflict test is short-circuited to false, so a matching,
non-tombstoned local item is overwritten when the remote `updated_at` is
strictly greater (last-write-wins) and skipped otherwise. -/
theorem import_item_no_watermark (items : List ItemRow) (vault_id : Int) (si : SyncItem)
    (key nonce : List Nat) (newId : Int) (newUuid : String) :
    (∀ t, (import_item items vault_id si key nonce newId newUuid none).2 ≠
      ImportItemResult.Conflict t) ∧
    (∀ existing,
      items.find? (fun r => decide (r.uuid = some si.uuid)) = some existing →
      existing.deleted_at = none → si.deleted_at = none →
      (strLtB existing.updated_at si.updated_at = true →
        import_item items vault_id si key nonce newId newUuid none =
          (items.map (fun r =>
            if r.id = existing.id then
              { r with title := si.title,
                       content := encrypt_content key nonce si.content,
                       updated_at := si.updated_at, image := si.image,
                       summary := si.summary, sort_order := si.sort_order }
            else r), ImportItemResult.Updated)) ∧
      (strLtB existing.updated_at si.updated_at = false →
        import_item items vault_id si key nonce newId newUuid none =
          (items, ImportItemResult.Skipped))) := by
  constructor
  · intro t
    unfold import_item
    generalize items.find? (fun r => decide (r.uuid = some si.uuid)) = x
    rcases x with _ | existing
    · dsimp only
      split <;> simp
    · dsimp only
      split
      · simp
      · split
        · simp
        · split
          · simp_all
          · split <;> simp
  · intro existing hfind hld hrd
    constructor
    · intro hlt
      unfold import_item
      rw [hfind]
      simp [hrd, hld, hlt]
    · intro hlt
      unfold import_item
      rw [hfind]
      simp [hrd, hld, hlt]

/-- Witness for `import_item_no_watermark`: concrete first-ever import where
the remote edit overwrites the local row without a conflict copy. -/
theorem import_item_no_watermark_witness :
    ((import_item [exRow] 1 exSi exKey exNonce 2 "w" none).2 ≠
      ImportItemResult.Conflict "t") ∧
    strLtB exRow.updated_at exSi.updated_at = true ∧
    (import_item [exRow] 1 exSi exKey exNonce 2 "w" none).2 =
      ImportItemResult.Updated :=
  ⟨(import_item_no_watermark [exRow] 1 exSi exKey exNonce 2 "w").1 "t",
   by decide,
   by rw [(((import_item_no_watermark [exRow] 1 exSi exKey exNonce 2 "w").2 exRow
      (by decide) rfl rfl).1 (by decide))]⟩

/-- C7: `list_by_vault` returns exactly the rows of the vault whose
`deleted_at` is unset (same multiset as the filter), membership is
characterized accordingly, and the output is sorted by `itemLE`, i.e. rows
with a `sort_order` before rows without one, then ascending `sort_order`,
then `created_at` descending. -/
theorem list_by_vault_spec (items : List ItemRow) (vault_id : Int) :
    (∀ r, r ∈ list_by_vault items vault_id ↔
      r ∈ items ∧ r.vault_id = vault_id ∧ r.deleted_at = none) ∧
    (list_by_vault items vault_id).Perm
      (items.filter (fun r => decide (r.vault_id = vault_id ∧ r.deleted_at = none))) ∧
    List.Pairwise (fun a b => itemLE a b = true) (list_by_vault items vault_id) := by
  refine ⟨?_, List.perm_insertionSort itemLEP _, ?_⟩
  · intro r
    unfold list_by_vault
    rw [(List.perm_insertionSort itemLEP _).mem_iff, List.mem_filter]
    simp [and_assoc]
  · exact List.sorted_insertionSort itemLEP _

/-! ## PurgeManager -/

/-- The `vaults` row / `Vault` struct (vault.rs:11-31). -/
structure VaultRec where
  id : Int
  name : String
  encrypted_password : List Nat
  created_at : String
  cover_image : Option String
  has_password : Bool
  uuid : Option String
  updated_at : Option String
  deleted_at : Option String
deriving DecidableEq

/-- The SQL predicate `deleted_at IS NOT NULL AND deleted_at < cutoff`
(sync.rs:899, sync.rs:905). -/
def deletedBefore (d : Option String) (cutoff : String) : Bool :=
  match d with
  | some s => strLtB s cutoff
  | none => false

/-- Result state of `purge_deleted_items`, together with the returned counts
(sync.rs:882-886). -/
structure PurgeOutcome where
  vaults : List VaultRec
  items : List ItemRow
  purged_vaults : Nat
  purged_items : Nat
deriving DecidableEq

/-- `purge_deleted_items` (sync.rs:889-926).  The cutoff `now − days` is
computed by the external chrono crate and serialized to RFC3339; it enters
here as the `cutoff` string, compared against `deleted_at` with SQLite's
lexicographic TEXT comparison.  First items soft-deleted before the cutoff
are hard-deleted, then each vault soft-deleted before the cutoff is
hard-deleted together with all its remaining items. -/
def purge_deleted_items (vaults : List VaultRec) (items : List ItemRow)
    (cutoff : String) : PurgeOutcome :=
  let items1 := items.filter (fun it => !(deletedBefore it.deleted_at cutoff))
  let purged_items := items.countP (fun it => deletedBefore it.deleted_at cutoff)
  let vault_ids := (vaults.filter (fun v => deletedBefore v.deleted_at cutoff)).map
    (fun v => v.id)
  let final := vault_ids.foldl
    (fun (p : List VaultRec × List ItemRow) vid =>
      (p.1.filter (fun v => !(decide (v.id = vid))),
       p.2.filter (fun it => !(decide (it.vault_id = vid)))))
    (vaults, items1)
  { vaults := final.1, items := final.2,
    purged_vaults := vault_ids.length, purged_items := purged_items }

theorem purge_fold_eq : ∀ (ids : List Int) (vs : List VaultRec) (its : List ItemRow),
    ids.foldl
      (fun (p : List VaultRec × List ItemRow) vid =>
        (p.1.filter (fun v => !(decide (v.id = vid))),
         p.2.filter (fun it => !(decide (it.vault_id = vid)))))
      (vs, its) =
    (vs.filter (fun v => !(decide (v.id ∈ ids))),
     its.filter (fun it => !(decide (it.vault_id ∈ ids)))) := by
  intro ids
  induction ids with
  | nil =>
    intro vs its
    simp
  | cons i rest ih =>
    intro vs its
    simp only [List.foldl_cons]
    rw [ih]
    have h1 : (vs.filter (fun v => !(decide (v.id = i)))).filter
        (fun v => !(decide (v.id ∈ rest))) =
        vs.filter (fun v => !(decide (v.id ∈ i :: rest))) := by
      rw [List.filter_filter]
      apply List.filter_congr
      intro v _
      by_cases hv1 : v.id = i <;> by_cases hv2 : v.id ∈ rest <;>
        simp [hv1, hv2, List.mem_cons]
    have h2 : (its.filter (fun it => !(decide (it.vault_id = i)))).filter
        (fun it => !(decide (it.vault_id ∈ rest))) =
        its.filter (fun it => !(decide (it.vault_id ∈ i :: rest))) := by
      rw [List.filter_filter]
      apply List.filter_congr
      intro it _
      by_cases hv1 : it.vault_id = i <;> by_cases hv2 : it.vault_id ∈ rest <;>
        simp [hv1, hv2, List.mem_cons]
    rw [h1, h2]

/-- C8: `purge_deleted_items` hard-deletes exactly the vaults whose
`deleted_at` is set and earlier than the cutoff, and exactly the items that
were soft-deleted before the cutoff or belong to a purged vault (the
defensive cascade); rows with `deleted_at` unset in surviving vaults are
never touched. -/
theorem purge_spec (vaults : List VaultRec) (items : List ItemRow) (cutoff : String)
    (hnodup : (vaults.map (fun v => v.id)).Nodup) :
    (purge_deleted_items vaults items cutoff).vaults =
      vaults.filter (fun v => !(deletedBefore v.deleted_at cutoff)) ∧
    (purge_deleted_items vaults items cutoff).items =
      items.filter (fun it => !(deletedBefore it.deleted_at cutoff) &&
        !(decide (it.vault_id ∈
          (vaults.filter (fun v => deletedBefore v.deleted_at cutoff)).map
            (fun v => v.id)))) ∧
    (∀ it ∈ items, it.deleted_at = none →
      it.vault_id ∉ (vaults.filter (fun v => deletedBefore v.deleted_at cutoff)).map
        (fun v => v.id) →
      it ∈ (purge_deleted_items vaults items cutoff).items) := by
  have hfold := purge_fold_eq
    ((vaults.filter (fun v => deletedBefore v.deleted_at cutoff)).map (fun v => v.id))
    vaults (items.filter (fun it => !(deletedBefore it.deleted_at cutoff)))
  have hv : (purge_deleted_items vaults items cutoff).vaults =
      vaults.filter (fun v => !(decide (v.id ∈
        (vaults.filter (fun v => deletedBefore v.deleted_at cutoff)).map
          (fun v => v.id)))) := by
    simp only [purge_deleted_items]
    rw [hfold]
  have hi : (purge_deleted_items vaults items cutoff).items =
      items.filter (fun it => !(deletedBefore it.deleted_at cutoff) &&
        !(decide (it.vault_id ∈
          (vaults.filter (fun v => deletedBefore v.deleted_at cutoff)).map
            (fun v => v.id)))) := by
    simp only [purge_deleted_items]
    rw [hfold]
    simp only []
    rw [List.filter_filter]
    apply List.filter_congr
    intro it _
    rw [Bool.and_comm]
  refine ⟨?_, hi, ?_⟩
  · rw [hv]
    apply List.filter_congr
    intro v hvmem
    have hiff : v.id ∈ (vaults.filter (fun v => deletedBefore v.deleted_at cutoff)).map
        (fun v => v.id) ↔ deletedBefore v.deleted_at cutoff = true := by
      constructor
      · intro hm
        rw [List.mem_map] at hm
        obtain ⟨w, hw, hwid⟩ := hm
        rw [List.mem_filter] at hw
        have : w = v := List.inj_on_of_nodup_map hnodup hw.1 hvmem hwid
        rw [← this]
        exact hw.2
      · intro hd
        rw [List.mem_map]
        exact ⟨v, List.mem_filter.mpr ⟨hvmem, hd⟩, rfl⟩
    by_cases hd : deletedBefore v.deleted_at cutoff
    · simp [hiff, hd]
    · simp only [Bool.not_eq_true] at hd
      simp [hiff, hd]
  · intro it hmem hdel hnv
    rw [hi, List.mem_filter]
    refine ⟨hmem, ?_⟩
    have h1 : deletedBefore it.deleted_at cutoff = false := by
      rw [hdel]; rfl
    simp [h1, hnv]

/-- Concrete surviving vault for the purge witness. -/
def exV1 : VaultRec :=
  { id := 1, name := "V", encrypted_password := [], created_at := "2026-01-01",
    cover_image := none, has_password := false, uuid := some "vu",
    updated_at := some "2026-01-01", deleted_at := none }

/-- Item soft-deleted 31 days before "now" (2026-10-12) in the witness. -/
def exI31 : ItemRow :=
  { exRow with id := 11, deleted_at := some "2026-09-11T00:00:00+00:00" }

/-- Item soft-deleted 29 days before "now" (2026-10-12) in the witness. -/
def exI29 : ItemRow :=
  { exRow with id := 12, deleted_at := some "2026-09-13T00:00:00+00:00" }

/-- Live (never deleted) item in the purge witness. -/
def exI0 : ItemRow := { exRow with id := 13 }

/-- Witness for `purge_spec`: with retention 30 days and now = 2026-10-12
(cutoff 2026-09-12), the item deleted 31 days ago is purged while the item
deleted 29 days ago and the live item survive. -/
theorem purge_spec_witness :
    ([exV1].map (fun v => v.id)).Nodup ∧
    (purge_deleted_items [exV1] [exI31, exI29, exI0]
      "2026-09-12T00:00:00+00:00").items = [exI29, exI0] ∧
    (purge_deleted_items [exV1] [exI31, exI29, exI0]
      "2026-09-12T00:00:00+00:00").vaults = [exV1] :=
  ⟨by decide,
   by
    rw [(purge_spec [exV1] [exI31, exI29, exI0] "2026-09-12T00:00:00+00:00"
      (by decide)).2.1]
    decide,
   by
    rw [(purge_spec [exV1] [exI31, exI29, exI0] "2026-09-12T00:00:00+00:00"
      (by decide)).1]
    decide⟩

/-! ## Reordering -/

/-- The loop body of `VaultItem::update_order` (vault.rs:522-531): one SQL
`UPDATE vault_items SET sort_order = ?1, updated_at = ?2 WHERE id = ?3 AND
vault_id = ?4` per listed id, with the running position `idx`.  An id whose
row is in another vault matches zero rows: the UPDATE succeeds and the loop
continues (no SQL error, hence no rollback). -/
def update_order_loop (items : List ItemRow) (vault_id : Int) (ids : List Int)
    (idx : Int) (now : String) : List ItemRow :=
  match ids with
  | [] => items
  | iid :: rest =>
    update_order_loop
      (items.map (fun r =>
        if r.id = iid ∧ r.vault_id = vault_id then
          { r with sort_order := some idx, updated_at := now }
        else r)) vault_id rest (idx + 1) now

/-- `VaultItem::update_order` (vault.rs:516-536): assigns positions 0,1,…
to the listed ids within the vault (the surrounding `BEGIN IMMEDIATE` /
`COMMIT` rolls back only on an SQL error, which the pure model cannot
produce; the vault's own `updated_at` bump is outside the items table). -/
def update_order (items : List ItemRow) (vault_id : Int) (ordered_ids : List Int)
    (now : String) : List ItemRow :=
  update_order_loop items vault_id ordered_ids 0 now

/-- What one full reorder pass does to a row (the characterization proved in
`update_order_loop_eq`). -/
def reorderFn (ids : List Int) (v : Int) (now : String) (r : ItemRow) : ItemRow :=
  if r.vault_id = v ∧ r.id ∈ ids then
    { r with sort_order := some (((ids.indexOf r.id : Nat)) : Int), updated_at := now }
  else r

theorem update_order_loop_eq : ∀ (ids : List Int), ids.Nodup →
    ∀ (items : List ItemRow) (v : Int) (idx : Int) (now : String),
    update_order_loop items v ids idx now =
      items.map (fun r =>
        if r.vault_id = v ∧ r.id ∈ ids then
          { r with sort_order := some (idx + ((ids.indexOf r.id : Nat) : Int)),
                   updated_at := now }
        else r) := by
  intro ids
  induction ids with
  | nil =>
    intro _ items v idx now
    simp [update_order_loop]
  | cons i rest ih =>
    intro hnd items v idx now
    have hni : i ∉ rest := (List.nodup_cons.mp hnd).1
    have hrest := ih (List.nodup_cons.mp hnd).2
    simp only [update_order_loop]
    rw [hrest, List.map_map]
    apply List.map_congr_left
    intro r _
    simp only [Function.comp]
    by_cases h2 : r.vault_id = v
    · by_cases h1 : r.id = i
      · have hinner : (if r.id = i ∧ r.vault_id = v then
            { r with sort_order := some idx, updated_at := now } else r) =
            { r with sort_order := some idx, updated_at := now } := if_pos ⟨h1, h2⟩
        rw [hinner]
        rw [if_neg (by
          intro hc
          have hm : r.id ∈ rest := hc.2
          rw [h1] at hm
          exact hni hm)]
        rw [if_pos ⟨h2, by rw [h1]; exact List.mem_cons_self i rest⟩]
        rw [h1, List.indexOf_cons_self]
        simp
      · have hinner : (if r.id = i ∧ r.vault_id = v then
            { r with sort_order := some idx, updated_at := now } else r) = r :=
          if_neg (by intro hc; exact h1 hc.1)
        rw [hinner]
        by_cases h3 : r.id ∈ rest
        · rw [if_pos ⟨h2, h3⟩, if_pos ⟨h2, List.mem_cons_of_mem i h3⟩]
          rw [List.indexOf_cons_ne rest (fun h => h1 h.symm)]
          have hcast : (((rest.indexOf r.id).succ : Nat) : Int) =
              1 + ((rest.indexOf r.id : Nat) : Int) := by
            push_cast
            ring
          rw [hcast]
          have hadd : idx + 1 + ((rest.indexOf r.id : Nat) : Int) =
              idx + (1 + ((rest.indexOf r.id : Nat) : Int)) := by ring
          rw [hadd]
        · rw [if_neg (by intro hc; exact h3 hc.2)]
          rw [if_neg (by
            intro hc
            rcases List.mem_cons.mp hc.2 with h | h
            · exact h1 h
            · exact h3 h)]
    · have hinner : (if r.id = i ∧ r.vault_id = v then
          { r with sort_order := some idx, updated_at := now } else r) = r :=
        if_neg (by intro hc; exact h2 hc.2)
      rw [hinner]
      rw [if_neg (by intro hc; exact h2 hc.1)]
      rw [if_neg (by intro hc; exact h2 hc.1)]

/-- Row of the reorder counterexample living in vault 1. -/
def cexA : ItemRow :=
  { id := 1, vault_id := 1, title := "a", content := [], created_at := "x",
    updated_at := "x", image := none, summary := none, sort_order := none,
    uuid := some "ca", deleted_at := none }

/-- Row of the reorder counterexample living in vault 2. -/
def cexC : ItemRow := { cexA with id := 2, vault_id := 2, uuid := some "cc" }

/-- Counterexample to C4 as stated: `ordered_ids = [1, 2]` contains id 2,
which does not belong to vault 1, yet the call still changes item 1's
`sort_order` (from `none` to `some 0`) and commits — the foreign id is
silently skipped, not rolled back. -/
theorem update_order_foreign_id_cex :
    cexC.vault_id ≠ 1 ∧ (2 : Int) ∈ [(1 : Int), 2] ∧
    update_order [cexA, cexC] 1 [1, 2] "now" =
      [{ cexA with sort_order := some 0, updated_at := "now" }, cexC] ∧
    ({ cexA with sort_order := some 0, updated_at := "now" } : ItemRow).sort_order ≠
      cexA.sort_order :=
  ⟨by decide, by decide, by decide, by decide⟩

theorem reorderFn_id (ids : List Int) (v : Int) (now : String) (r : ItemRow) :
    (reorderFn ids v now r).id = r.id := by
  unfold reorderFn
  split <;> rfl

theorem reorderFn_vault (ids : List Int) (v : Int) (now : String) (r : ItemRow) :
    (reorderFn ids v now r).vault_id = r.vault_id := by
  unfold reorderFn
  split <;> rfl

theorem reorderFn_deleted (ids : List Int) (v : Int) (now : String) (r : ItemRow) :
    (reorderFn ids v now r).deleted_at = r.deleted_at := by
  unfold reorderFn
  split <;> rfl

theorem reorderFn_so (ids : List Int) (v : Int) (now : String) (r : ItemRow)
    (hc : r.vault_id = v ∧ r.id ∈ ids) :
    (reorderFn ids v now r).sort_order = some ((ids.indexOf r.id : Nat) : Int) := by
  unfold reorderFn
  rw [if_pos hc]

/-- C4 (amended): `update_order` applies `sort_order := position in the list`
to exactly the listed ids that do belong to the vault — a foreign id is
silently skipped (its UPDATE matches zero rows, which is not an SQL error),
while the rest of the batch still commits.  When the listed ids are exactly
the vault's non-deleted items, a subsequent `list_by_vault` returns them in
exactly the given order. -/
theorem update_order_spec (items : List ItemRow) (v : Int) (ids : List Int)
    (now : String) (hnd : ids.Nodup) :
    update_order items v ids now = items.map (reorderFn ids v now) ∧
    ((items.map (fun r => r.id)).Nodup →
     (∀ i ∈ ids, ∃ r ∈ items, r.id = i ∧ r.vault_id = v ∧ r.deleted_at = none) →
     (∀ r ∈ items, r.vault_id = v → r.deleted_at = none → r.id ∈ ids) →
     (list_by_vault (update_order items v ids now) v).map (fun r => r.id) = ids) := by
  have h0 : update_order items v ids now = items.map (reorderFn ids v now) := by
    unfold update_order
    rw [update_order_loop_eq ids hnd]
    apply List.map_congr_left
    intro r _
    unfold reorderFn
    by_cases hc : r.vault_id = v ∧ r.id ∈ ids
    · rw [if_pos hc, if_pos hc]
      simp
    · rw [if_neg hc, if_neg hc]
  refine ⟨h0, ?_⟩
  intro hids hcov1 hcov2
  rw [h0]
  have hfilter : (items.map (reorderFn ids v now)).filter
      (fun r => decide (r.vault_id = v ∧ r.deleted_at = none)) =
      (items.filter (fun r => decide (r.vault_id = v ∧ r.deleted_at = none))).map
        (reorderFn ids v now) := by
    rw [List.filter_map]
    congr 1
    apply List.filter_congr
    intro r _
    simp only [Function.comp]
    rw [reorderFn_vault, reorderFn_deleted]
  have hL : list_by_vault (items.map (reorderFn ids v now)) v =
      ((items.filter (fun r => decide (r.vault_id = v ∧ r.deleted_at = none))).map
        (reorderFn ids v now)).insertionSort itemLEP := by
    unfold list_by_vault
    rw [hfilter]
  rw [hL]
  set S := items.filter (fun r => decide (r.vault_id = v ∧ r.deleted_at = none)) with hS
  set M := (S.map (reorderFn ids v now)).insertionSort itemLEP with hM
  have hface : ∀ x ∈ M, x.sort_order = some ((ids.indexOf x.id : Nat) : Int) ∧
      x.id ∈ ids := by
    intro x hx
    have hx2 : x ∈ S.map (reorderFn ids v now) :=
      (List.perm_insertionSort itemLEP _).mem_iff.mp hx
    rw [List.mem_map] at hx2
    obtain ⟨r, hrS, hrx⟩ := hx2
    obtain ⟨hrmem, hrp⟩ := List.mem_filter.mp hrS
    simp only [decide_eq_true_eq] at hrp
    have hrid : r.id ∈ ids := hcov2 r hrmem hrp.1 hrp.2
    constructor
    · rw [← hrx, reorderFn_id, reorderFn_so ids v now r ⟨hrp.1, hrid⟩]
    · rw [← hrx, reorderFn_id]
      exact hrid
  have hMnodup : (M.map (fun r => r.id)).Nodup := by
    have hid_eq : (S.map (reorderFn ids v now)).map (fun r => r.id) =
        S.map (fun r => r.id) := by
      rw [List.map_map]
      apply List.map_congr_left
      intro r _
      simp only [Function.comp]
      exact reorderFn_id ids v now r
    have hSid : (S.map (fun r => r.id)).Nodup := by
      have hsub : (S.map (fun r => r.id)).Sublist (items.map (fun r => r.id)) :=
        (List.filter_sublist items).map _
      exact hsub.nodup hids
    have hperm2 : (M.map (fun r => r.id)).Perm (S.map (fun r => r.id)) := by
      have hp := (List.perm_insertionSort itemLEP (S.map (reorderFn ids v now))).map
        (fun r => r.id)
      rw [hid_eq] at hp
      exact hp
    exact hperm2.nodup_iff.mpr hSid
  have hmem_iff : ∀ a, a ∈ M.map (fun r => r.id) ↔ a ∈ ids := by
    intro a
    constructor
    · intro ha
      rw [List.mem_map] at ha
      obtain ⟨x, hx, hxa⟩ := ha
      rw [← hxa]
      exact (hface x hx).2
    · intro ha
      obtain ⟨r, hrmem, hrid, hrv, hrd⟩ := hcov1 a ha
      have hrS : r ∈ S := List.mem_filter.mpr ⟨hrmem, by simp [hrv, hrd]⟩
      have hxM : reorderFn ids v now r ∈ M :=
        (List.perm_insertionSort itemLEP _).mem_iff.mpr (List.mem_map_of_mem _ hrS)
      rw [List.mem_map]
      exact ⟨reorderFn ids v now r, hxM, by rw [reorderFn_id]; exact hrid⟩
  have hfinal_perm : (M.map (fun r => r.id)).Perm ids :=
    (List.perm_ext_iff_of_nodup hMnodup hnd).mpr hmem_iff
  have hsortedM : List.Pairwise (fun a b => itemLE a b = true) M :=
    List.sorted_insertionSort itemLEP _
  have hneM : List.Pairwise (fun a b : ItemRow => a.id ≠ b.id) M :=
    List.pairwise_map.mp hMnodup
  have hpairM : List.Pairwise (fun a b : ItemRow =>
      ids.indexOf a.id < ids.indexOf b.id) M := by
    apply List.Pairwise.imp_of_mem ?_ (hsortedM.and hneM)
    intro a b ha hb hab
    obtain ⟨hle, hneq⟩ := hab
    obtain ⟨hsoa, hida⟩ := hface a ha
    obtain ⟨hsob, hidb⟩ := hface b hb
    rw [itemLE_iff] at hle
    have hra : rankOf a = 0 := by unfold rankOf; rw [hsoa]
    have hrb : rankOf b = 0 := by unfold rankOf; rw [hsob]
    have hsa : soVal a = ((ids.indexOf a.id : Nat) : Int) := by
      unfold soVal; rw [hsoa]
    have hsb : soVal b = ((ids.indexOf b.id : Nat) : Int) := by
      unfold soVal; rw [hsob]
    rcases hle with h | ⟨_, h⟩ | ⟨_, h2, _⟩
    · omega
    · rw [hsa, hsb] at h
      exact_mod_cast h
    · rw [hsa, hsb] at h2
      have hix : ids.indexOf a.id = ids.indexOf b.id := by exact_mod_cast h2
      exact absurd ((List.indexOf_inj hida hidb).mp hix) hneq
  have hpair : List.Pairwise (fun a b : Int => ids.indexOf a < ids.indexOf b)
      (M.map (fun r => r.id)) := List.pairwise_map.mpr hpairM
  have hids_sorted : List.Pairwise (fun a b : Int => ids.indexOf a < ids.indexOf b)
      ids := by
    rw [List.pairwise_iff_getElem]
    intro i j hi hj hij
    rw [List.indexOf_getElem hnd i hi, List.indexOf_getElem hnd j hj]
    exact hij
  haveI : IsAntisymm Int (fun a b => ids.indexOf a < ids.indexOf b) :=
    ⟨fun a b h1 h2 => absurd (h1.trans h2) (lt_irrefl _)⟩
  exact List.eq_of_perm_of_sorted hfinal_perm hpair hids_sorted

/-- Second row of the reorder witness, same vault as `cexA`. -/
def cexB : ItemRow := { cexA with id := 3, title := "b", created_at := "y", uuid := some "cb" }

/-- Witness for `update_order_spec`: reordering the two items of vault 1 to
`[3, 1]` makes `list_by_vault` return exactly that order. -/
theorem update_order_spec_witness :
    ([(3 : Int), 1].Nodup) ∧
    (list_by_vault (update_order [cexA, cexB] 1 [3, 1] "now") 1).map (fun r => r.id) =
      [3, 1] :=
  ⟨by decide,
   (update_order_spec [cexA, cexB] 1 [3, 1] "now" (by decide)).2
     (by decide) (by decide) (by decide)⟩

/-! ## SyncEngine export -/

/-- The plaintext vault record of the sync file (sync.rs:33-45). -/
structure SyncVault where
  uuid : String
  name : String
  created_at : String
  updated_at : String
  deleted_at : Option String
  cover_image : Option String
  has_password : Bool
  items : List SyncItem
deriving DecidableEq

/-- Accumulator of the vault loop of `sync_export` (sync.rs:183-186), plus the
counter of the fresh-uuid oracle standing in for `Uuid::new_v4()`. -/
structure ExportState where
  sync_vaults : List SyncVault
  skipped_vaults : List String
  exported_items : Nat
  warnings : List String
  ctr : Nat
deriving DecidableEq

/-- Uuid of an exported item: the stored one, or the next fresh one
(sync.rs:225-228). -/
def itemUuidVal (gen : Nat → String) (ctr : Nat) (it : ItemRow) : String :=
  match it.uuid with
  | some u => u
  | none => gen ctr

/-- Fresh-uuid counter after resolving an item's uuid. -/
def itemUuidCtr (ctr : Nat) (it : ItemRow) : Nat :=
  match it.uuid with
  | some _ => ctr
  | none => ctr + 1

/-- Warning emitted when an item lacks a uuid (sync.rs:226). -/
def itemUuidWarn (it : ItemRow) : List String :=
  match it.uuid with
  | some _ => []
  | none => ["Item '" ++ it.title ++ "' has no UUID, generating one"]

/-- The per-item half of the `sync_export` vault loop (sync.rs:223-252): a
password-protected vault propagates any decryption failure with `?`; a
passwordless vault falls back to the lossy byte decoding. -/
def export_items (key : List Nat) (hp : Bool) (gen : Nat → String) :
    List ItemRow → Nat → Except String (List SyncItem × Nat × List String)
  | [], ctr => Except.ok ([], ctr, [])
  | it :: rest, ctr =>
    match (if hp then decrypt_content key it.content
           else Except.ok (match decrypt_content key it.content with
             | Except.ok s => s
             | Except.error _ => strOfBytes it.content)) with
    | Except.error e => Except.error e
    | Except.ok content =>
      match export_items key hp gen rest (itemUuidCtr ctr it) with
      | Except.error e => Except.error e
      | Except.ok (sis, ctr2, w2) =>
        Except.ok ({ uuid := itemUuidVal gen ctr it, title := it.title,
                     content := content, created_at := it.created_at,
                     updated_at := it.updated_at, deleted_at := it.deleted_at,
                     image := it.image, summary := it.summary,
                     sort_order := it.sort_order } :: sis, ctr2,
                   itemUuidWarn it ++ w2)

/-- Uuid of an exported vault (sync.rs:189-192). -/
def vaultUuidVal (gen : Nat → String) (st : ExportState) (v : VaultRec) : String :=
  match v.uuid with
  | some u => u
  | none => gen st.ctr

/-- Fresh-uuid counter after resolving a vault's uuid. -/
def vaultUuidCtr (st : ExportState) (v : VaultRec) : Nat :=
  match v.uuid with
  | some _ => st.ctr
  | none => st.ctr + 1

/-- Warning emitted when a vault lacks a uuid (sync.rs:190). -/
def vaultUuidWarn (v : VaultRec) : List String :=
  match v.uuid with
  | some _ => []
  | none => ["Vault '" ++ v.name ++ "' has no UUID, generating one"]

/-- Key resolution of the export loop (sync.rs:195-215): a password vault
needs a caller-supplied key of exactly 32 bytes, otherwise it is skipped with
the corresponding reason; a passwordless vault derives the empty-password key
from its own id. -/
def resolveExportKey (passwords : Int → Option (List Nat)) (v : VaultRec) :
    Sum (List Nat) String :=
  if v.has_password then
    match passwords v.id with
    | some kv => if kv.length = 32 then Sum.inl kv else Sum.inr "invalid key length"
    | none => Sum.inr "password required but not provided"
  else Sum.inl (derive_key_from_password "" (toString v.id) 100000)

/-- Whether the export loop skips this vault for lack of a usable key
(absent entry or wrong length for a password-protected vault). -/
def vaultKeyMissing (passwords : Int → Option (List Nat)) (v : VaultRec) : Bool :=
  v.has_password &&
    (match passwords v.id with
     | some kv => decide (kv.length ≠ 32)
     | none => true)

/-- One iteration of the vault loop of `sync_export` (sync.rs:188-264). -/
def export_one_vault (passwords : Int → Option (List Nat)) (items : List ItemRow)
    (gen : Nat → String) (now : String) (st : ExportState) (v : VaultRec) :
    Except String ExportState :=
  match resolveExportKey passwords v with
  | Sum.inr reason =>
    Except.ok { st with
      skipped_vaults := st.skipped_vaults ++ [v.name],
      warnings := st.warnings ++ vaultUuidWarn v ++
        ["Skipped vault '" ++ v.name ++ "': " ++ reason],
      ctr := vaultUuidCtr st v }
  | Sum.inl key =>
    match export_items key v.has_password gen
        (list_all_by_vault_for_sync items v.id) (vaultUuidCtr st v) with
    | Except.error e => Except.error e
    | Except.ok (sis, ctr2, w2) =>
      Except.ok
        { sync_vaults := st.sync_vaults ++
            [{ uuid := vaultUuidVal gen st v, name := v.name,
               created_at := v.created_at, updated_at := v.updated_at.getD now,
               deleted_at := v.deleted_at, cover_image := v.cover_image,
               has_password := v.has_password, items := sis }],
          skipped_vaults := st.skipped_vaults,
          exported_items := st.exported_items + sis.length,
          warnings := st.warnings ++ vaultUuidWarn v ++ w2,
          ctr := ctr2 }

/-- The vault loop of `sync_export` (sync.rs:188-264) over all vaults, started
from the empty accumulator. -/
def sync_export_vaults (vaults : List VaultRec) (items : List ItemRow)
    (passwords : Int → Option (List Nat)) (gen : Nat → String) (now : String) :
    Except String ExportState :=
  List.foldlM (export_one_vault passwords items gen now)
    { sync_vaults := [], skipped_vaults := [], exported_items := 0,
      warnings := [], ctr := 0 } vaults

theorem resolveExportKey_cases (passwords : Int → Option (List Nat)) (v : VaultRec) :
    (vaultKeyMissing passwords v = true ∧
      ∃ r, resolveExportKey passwords v = Sum.inr r) ∨
    (vaultKeyMissing passwords v = false ∧
      ∃ k, resolveExportKey passwords v = Sum.inl k ∧
        (v.has_password = true → passwords v.id = some k ∧ k.length = 32)) := by
  unfold vaultKeyMissing resolveExportKey
  cases hhp : v.has_password with
  | false =>
    right
    refine ⟨by simp, derive_key_from_password "" (toString v.id) 100000, by simp, ?_⟩
    intro h
    exact absurd h (by simp)
  | true =>
    cases hpw : passwords v.id with
    | none =>
      left
      exact ⟨by simp, "password required but not provided", by simp⟩
    | some kv =>
      by_cases hlen : kv.length = 32
      · right
        refine ⟨by simp [hlen], kv, by simp [hlen], fun _ => ⟨rfl, hlen⟩⟩
      · left
        exact ⟨by simp [hlen], "invalid key length", by simp [hlen]⟩

theorem export_items_ok (key : List Nat) (hp : Bool) (gen : Nat → String) :
    ∀ (l : List ItemRow) (ctr : Nat),
    (hp = true → ∀ it ∈ l, ∃ s, decrypt_content key it.content = Except.ok s) →
    ∃ r, export_items key hp gen l ctr = Except.ok r := by
  intro l
  induction l with
  | nil =>
    intro ctr _
    exact ⟨([], ctr, []), rfl⟩
  | cons it rest ih =>
    intro ctr hdec
    obtain ⟨content, hcontent⟩ : ∃ c,
        (if hp then decrypt_content key it.content
         else Except.ok (match decrypt_content key it.content with
           | Except.ok s => s
           | Except.error _ => strOfBytes it.content)) = Except.ok c := by
      cases hp with
      | false => exact ⟨_, rfl⟩
      | true =>
        obtain ⟨s, hs⟩ := hdec rfl it (List.mem_cons_self it rest)
        exact ⟨s, by rw [if_pos rfl, hs]⟩
    obtain ⟨⟨sis, ctr2, w2⟩, hr⟩ := ih (itemUuidCtr ctr it)
      (fun hhp it2 h2 => hdec hhp it2 (List.mem_cons_of_mem _ h2))
    exact ⟨_, by unfold export_items; rw [hcontent, hr]⟩

theorem list_all_by_vault_for_sync_mem (items : List ItemRow) (vid : Int) :
    ∀ it ∈ list_all_by_vault_for_sync items vid, it ∈ items ∧ it.vault_id = vid := by
  intro it hit
  have h2 : it ∈ items.filter (fun r => decide (r.vault_id = vid)) :=
    (List.perm_insertionSort itemLEP _).mem_iff.mp hit
  rw [List.mem_filter] at h2
  exact ⟨h2.1, by simpa using h2.2⟩

theorem export_one_vault_skip (passwords : Int → Option (List Nat))
    (items : List ItemRow) (gen : Nat → String) (now : String) (st0 : ExportState)
    (v : VaultRec) (reason : String)
    (hreason : resolveExportKey passwords v = Sum.inr reason) :
    ∃ st1, export_one_vault passwords items gen now st0 v = Except.ok st1 ∧
      st1.skipped_vaults = st0.skipped_vaults ++ [v.name] ∧
      st1.sync_vaults = st0.sync_vaults := by
  have hstep : export_one_vault passwords items gen now st0 v =
      Except.ok
        { st0 with
          skipped_vaults := st0.skipped_vaults ++ [v.name],
          warnings := st0.warnings ++ vaultUuidWarn v ++
            ["Skipped vault '" ++ v.name ++ "': " ++ reason],
          ctr := vaultUuidCtr st0 v } := by
    unfold export_one_vault
    rw [hreason]
  exact ⟨_, hstep, rfl, rfl⟩

theorem export_one_vault_good (passwords : Int → Option (List Nat))
    (items : List ItemRow) (gen : Nat → String) (now : String) (st0 : ExportState)
    (v : VaultRec) (key : List Nat)
    (hkey : resolveExportKey passwords v = Sum.inl key)
    (hdecv : v.has_password = true →
      ∀ it ∈ list_all_by_vault_for_sync items v.id,
      ∃ s, decrypt_content key it.content = Except.ok s) :
    ∃ st1, export_one_vault passwords items gen now st0 v = Except.ok st1 ∧
      st1.skipped_vaults = st0.skipped_vaults ∧
      st1.sync_vaults.map (fun sv => sv.name) =
        st0.sync_vaults.map (fun sv => sv.name) ++ [v.name] := by
  obtain ⟨⟨sis, ctr2, w2⟩, hei⟩ := export_items_ok key v.has_password gen
    (list_all_by_vault_for_sync items v.id) (vaultUuidCtr st0 v) hdecv
  have hstep : export_one_vault passwords items gen now st0 v =
      Except.ok
        { sync_vaults := st0.sync_vaults ++
            [{ uuid := vaultUuidVal gen st0 v, name := v.name,
               created_at := v.created_at, updated_at := v.updated_at.getD now,
               deleted_at := v.deleted_at, cover_image := v.cover_image,
               has_password := v.has_password, items := sis }],
          skipped_vaults := st0.skipped_vaults,
          exported_items := st0.exported_items + sis.length,
          warnings := st0.warnings ++ vaultUuidWarn v ++ w2,
          ctr := ctr2 } := by
    unfold export_one_vault
    rw [hkey]
    dsimp only
    rw [hei]
  refine ⟨_, hstep, rfl, ?_⟩
  simp

theorem sync_export_loop (passwords : Int → Option (List Nat)) (items : List ItemRow)
    (gen : Nat → String) (now : String) :
    ∀ (vaults : List VaultRec),
    (∀ v ∈ vaults, v.has_password = true → ∀ kv, passwords v.id = some kv →
      kv.length = 32 → ∀ it ∈ items, it.vault_id = v.id →
      ∃ s, decrypt_content kv it.content = Except.ok s) →
    ∀ st0 : ExportState,
    ∃ st, List.foldlM (export_one_vault passwords items gen now) st0 vaults =
        Except.ok st ∧
      st.skipped_vaults = st0.skipped_vaults ++
        (vaults.filter (vaultKeyMissing passwords)).map (fun v => v.name) ∧
      st.sync_vaults.map (fun sv => sv.name) =
        st0.sync_vaults.map (fun sv => sv.name) ++
        (vaults.filter (fun v => !(vaultKeyMissing passwords v))).map
          (fun v => v.name) := by
  intro vaults
  induction vaults with
  | nil =>
    intro _ st0
    exact ⟨st0, rfl, by simp, by simp⟩
  | cons v rest ih =>
    intro hdec st0
    have hdecrest := fun w hw => hdec w (List.mem_cons_of_mem v hw)
    rcases resolveExportKey_cases passwords v with
      ⟨hbad, reason, hreason⟩ | ⟨hgoodb, key, hkey, hgood⟩
    · obtain ⟨st1, hstep1, hskip1, hnames1⟩ :=
        export_one_vault_skip passwords items gen now st0 v reason hreason
      have hfold1 : List.foldlM (export_one_vault passwords items gen now) st0
          (v :: rest) =
          List.foldlM (export_one_vault passwords items gen now) st1 rest := by
        rw [List.foldlM_cons, hstep1]
        rfl
      obtain ⟨st, hfold, hskip, hnames⟩ := ih hdecrest st1
      refine ⟨st, by rw [hfold1]; exact hfold, ?_, ?_⟩
      · rw [hskip, hskip1]
        simp [List.filter_cons, hbad, List.append_assoc]
      · rw [hnames, hnames1]
        simp [List.filter_cons, hbad]
    · have hdecv : v.has_password = true →
          ∀ it ∈ list_all_by_vault_for_sync items v.id,
          ∃ s, decrypt_content key it.content = Except.ok s := by
        intro hhp it hit
        obtain ⟨hpw, hlen⟩ := hgood hhp
        obtain ⟨hmem, hvid⟩ := list_all_by_vault_for_sync_mem items v.id it hit
        exact hdec v (List.mem_cons_self v rest) hhp key hpw hlen it hmem hvid
      obtain ⟨st1, hstep1, hskip1, hnames1⟩ :=
        export_one_vault_good passwords items gen now st0 v key hkey hdecv
      have hfold1 : List.foldlM (export_one_vault passwords items gen now) st0
          (v :: rest) =
          List.foldlM (export_one_vault passwords items gen now) st1 rest := by
        rw [List.foldlM_cons, hstep1]
        rfl
      obtain ⟨st, hfold, hskip, hnames⟩ := ih hdecrest st1
      refine ⟨st, by rw [hfold1]; exact hfold, ?_, ?_⟩
      · rw [hskip, hskip1]
        simp [List.filter_cons, hgoodb]
      · rw [hnames, hnames1]
        simp [List.filter_cons, hgoodb, List.append_assoc]

/-- C5 (amended): the vault loop of `sync_export` skips — with a warning and
an entry in `skipped_vaults` — every password-protected vault whose
caller-supplied key is absent or not 32 bytes, and completes covering all
remaining vaults, provided every supplied 32-byte key does decrypt its
vault's items.  (A supplied 32-byte key that fails to decrypt an item aborts
the whole export with the decryption error instead — see the
counterexample.) -/
theorem sync_export_skips_bad_keys (vaults : List VaultRec) (items : List ItemRow)
    (passwords : Int → Option (List Nat)) (gen : Nat → String) (now : String)
    (hdec : ∀ v ∈ vaults, v.has_password = true → ∀ kv, passwords v.id = some kv →
      kv.length = 32 → ∀ it ∈ items, it.vault_id = v.id →
      ∃ s, decrypt_content kv it.content = Except.ok s) :
    ∃ st, sync_export_vaults vaults items passwords gen now = Except.ok st ∧
      st.skipped_vaults =
        (vaults.filter (vaultKeyMissing passwords)).map (fun v => v.name) ∧
      st.sync_vaults.map (fun sv => sv.name) =
        (vaults.filter (fun v => !(vaultKeyMissing passwords v))).map
          (fun v => v.name) := by
  obtain ⟨st, h1, h2, h3⟩ := sync_export_loop passwords items gen now vaults hdec
    { sync_vaults := [], skipped_vaults := [], exported_items := 0,
      warnings := [], ctr := 0 }
  exact ⟨st, h1, by simpa using h2, by simpa using h3⟩

/-- Concrete password-protected vault for the export scenarios. -/
def cexVaultP : VaultRec :=
  { id := 1, name := "P", encrypted_password := [], created_at := "c",
    cover_image := none, has_password := true, uuid := some "pv",
    updated_at := some "t", deleted_at := none }

/-- Concrete passwordless vault for the export scenarios. -/
def cexVaultNP : VaultRec :=
  { id := 2, name := "N", encrypted_password := [], created_at := "c",
    cover_image := none, has_password := false, uuid := some "nv",
    updated_at := some "t", deleted_at := none }

/-- Item of the password vault, encrypted under `exKey`. -/
def cexItemP : ItemRow :=
  { id := 1, vault_id := 1, title := "i",
    content := encrypt_content exKey exNonce "secret", created_at := "c",
    updated_at := "t", image := none, summary := none, sort_order := none,
    uuid := some "iu", deleted_at := none }

/-- A 32-byte key different from `exKey`. -/
def cexWrongKey : List Nat := 1 :: List.replicate 31 7

/-- Counterexample to C5 as stated: a caller-supplied 32-byte key that fails
to decrypt a password-protected vault's item does not lead to the vault being
skipped — the `?` on `decrypt_content` aborts the whole export with the
decryption error. -/
theorem sync_export_wrong_key_aborts_cex :
    cexWrongKey.length = 32 ∧ cexWrongKey ≠ exKey ∧
    sync_export_vaults [cexVaultP] [cexItemP]
      (fun i => if i = 1 then some cexWrongKey else none)
      (fun _ => "g") "now" = Except.error "Decryption failed" :=
  ⟨by decide, by decide, rfl⟩

/-- Witness for `sync_export_skips_bad_keys`: a password vault without a key
is skipped while the passwordless vault is still exported. -/
theorem sync_export_skips_bad_keys_witness :
    ∃ st : ExportState,
      sync_export_vaults [cexVaultP, cexVaultNP] [] (fun _ => none)
        (fun _ => "g") "now" = Except.ok st ∧
      st.skipped_vaults = ["P"] ∧
      st.sync_vaults.map (fun sv => sv.name) = ["N"] := by
  obtain ⟨st, h1, h2, h3⟩ := sync_export_skips_bad_keys [cexVaultP, cexVaultNP] []
    (fun _ => none) (fun _ => "g") "now"
    (fun v hv hhp kv hkv => absurd hkv (by simp))
  refine ⟨st, h1, ?_, ?_⟩
  · rw [h2]
    decide
  · rw [h3]
    decide
